import Mathlib

/-!
Verification development for the `firebase-to-llm` dump utility
(src/firebase-to-llm.py).  The program is embedded shallowly:

* `json_serializer` (source lines 20-60) becomes a total Lean function on an
  explicit value type `PyVal`; the behaviour of the host runtime on values
  outside the special-cased types (whether the generic encoder raises a
  TypeError, raises some other exception, and what the string form of the
  value is) is part of the input, carried by the `other` constructor.
* `dump_collection` (source lines 64-129) becomes a fuel-indexed traversal
  `dumpFuel` over an abstract `Store`, producing the list of print events the
  Python code emits.  Fuel exhaustion returns `none`; the wrapper `dump`
  supplies enough fuel, and the termination theorem shows fuel
  `(max_depth + 1 - depth) + 1` always suffices.
* The `__main__` bootstrap (source lines 189-240) is embedded only as far as
  the claims need it: the app-initialisation call that ignores the computed
  option map, and the loop over root collections.
-/

namespace FireDump

/-! ### Calendar rendering, as the Python datetime library does it

The source converts a protobuf timestamp via `ToDatetime()` (microseconds =
nanos integer-divided by 1000, added to the epoch), tags it as UTC, and calls
`isoformat` with millisecond precision.  `isoformat` on an aware datetime
appends the UTC offset text `+00:00`; the source then appends a literal `Z`
on top of that.  The civil-date computation below is the standard
days-to-Gregorian-date algorithm; divisions are floor divisions, matching
Python integer arithmetic. -/

def pad2 (n : Nat) : String :=
  if n < 10 then "0" ++ toString n else toString n

def pad3 (n : Nat) : String :=
  if n < 10 then "00" ++ toString n
  else if n < 100 then "0" ++ toString n
  else toString n

def pad4i (y : Int) : String :=
  let n := y.toNat
  if n < 10 then "000" ++ toString n
  else if n < 100 then "00" ++ toString n
  else if n < 1000 then "0" ++ toString n
  else toString n

/-- Gregorian calendar date (year, month, day) of a day count relative to
1970-01-01, by the standard era-based algorithm. -/
def civilFromDays (z0 : Int) : Int × Nat × Nat :=
  let z := z0 + 719468
  let era : Int := Int.fdiv z 146097
  let doe : Nat := (z - era * 146097).toNat
  let yoe : Nat := (doe - doe / 1460 + doe / 36524 - doe / 146096) / 365
  let doy : Nat := doe - (365 * yoe + yoe / 4 - yoe / 100)
  let mp : Nat := (5 * doy + 2) / 153
  let d : Nat := doy - (153 * mp + 2) / 5 + 1
  let m : Nat := if mp < 10 then mp + 3 else mp - 9
  let y : Int := (yoe : Int) + era * 400 + (if m ≤ 2 then 1 else 0)
  (y, m, d)

/-- ISO text of a UTC instant, second resolution plus an explicit
3-digit millisecond field: the body produced by `isoformat` with
millisecond timespec, before the offset suffix. -/
def isoUTCMillis (secs : Int) (millis : Nat) : String :=
  let days := Int.fdiv secs 86400
  let sod : Nat := (secs - days * 86400).toNat
  let ymd := civilFromDays days
  pad4i ymd.1 ++ "-" ++ pad2 ymd.2.1 ++ "-" ++ pad2 ymd.2.2 ++ "T" ++
    pad2 (sod / 3600) ++ ":" ++ pad2 (sod / 60 % 60) ++ ":" ++ pad2 (sod % 60) ++
    "." ++ pad3 millis

/-- Rendering of a wire timestamp with fields `seconds`/`nanos` by source
lines 24-30: `ToDatetime()` adds `nanos` integer-divided by 1000 as
microseconds to the epoch, the result is tagged UTC, `isoformat` with
millisecond timespec prints the civil time followed by the offset text
`+00:00` (the datetime is timezone-aware), and the source appends a further
literal `Z`. -/
def tsRender (seconds : Int) (nanos : Nat) : String :=
  let totalMicros : Int := seconds * 1000000 + ((nanos / 1000 : Nat) : Int)
  let secs := Int.fdiv totalMicros 1000000
  let micros : Nat := (totalMicros - secs * 1000000).toNat
  isoUTCMillis secs (micros / 1000) ++ "+00:00Z"

/-! ### The value model for `json_serializer` -/

/-- Behaviour of the generic JSON encoder (`json.dumps` with no hook) on a
value outside the special-cased types.  `ok r` means the value is natively
serializable and renders as the text `r`; `typeError` the usual failure on a
non-native type; `otherError m` any other exception with message `m`
(for example a circular-reference ValueError). -/
inductive DumpsOutcome where
  | ok (rendered : String)
  | typeError
  | otherError (msg : String)
  deriving DecidableEq

/-- Behaviour of taking the string form of a value: either the resulting
text, or the exception message when the conversion itself raises. -/
inductive StrOutcome where
  | ok (s : String)
  | raisesStr (msg : String)
  deriving DecidableEq

/-- Field values as `json_serializer` distinguishes them, in source order of
the dispatch (lines 22-60):
* `prim r` — a value the generic encoder handles natively (rendered `r`);
  the encoder never consults the serializer hook for these.
* `timestampTD s n` — a wire-level timestamp object carrying `seconds` and
  `nanos` and exposing `ToDatetime` (the protobuf timestamp class does).
* `sentinelObj` — the server-timestamp sentinel object itself.  It matches
  the first `isinstance` check (it is an instance of the sentinel class) but
  has neither `ToDatetime` nor `seconds`, so the attribute access on source
  line 28 raises.
* `docRef p` — a cross-document reference with slash path `p`.
* `geoPoint lat lon` — a geographic point; the coordinates are carried
  already rendered as number text.
* `eqSentinel` — a value of some unrelated type that compares equal to the
  sentinel (source line 37 tests equality, not identity).
* `pydate iso` — a plain Python date/datetime, carried as the text its
  `isoformat` produces.
* `other ty d s` — any other value: `ty` its type name, `d` what the generic
  encoder does with it, `s` what taking its string form does. -/
inductive PyVal where
  | prim (rendered : String)
  | timestampTD (seconds : Int) (nanos : Nat)
  | sentinelObj
  | docRef (path : String)
  | geoPoint (lat lon : String)
  | eqSentinel
  | pydate (iso : String)
  | other (ty : String) (d : DumpsOutcome) (s : StrOutcome)
  deriving DecidableEq

/-- JSON value returned by the serializer hook, as far as rendering needs:
a string, a natively rendered fragment, or the geopoint mapping. -/
inductive JsonOut where
  | jstr (s : String)
  | jraw (s : String)
  | jgeo (lat lon : String)
  deriving DecidableEq

/-- Diagnostic-stream warning text of source lines 56-59. -/
def serWarnMsg (ty msg : String) : String :=
  "Warning: Could not serialize object of type " ++ ty ++ ": " ++ msg

/-- Result of one call of the serializer hook: a returned value together
with the warnings it printed to the diagnostic stream, or an exception that
propagates out of the hook. -/
inductive SerResult where
  | val (j : JsonOut) (warns : List String)
  | raise (msg : String)
  deriving DecidableEq

/-- Shallow embedding of `json_serializer` (source lines 20-60), branch by
branch in source order:
1. instance of the sentinel class or the wire timestamp class: with
   `ToDatetime` present, render via `tsRender`; without it (the sentinel
   object), the `obj.seconds` access raises an AttributeError;
2. document reference: the literal `Reference(path=...)` string;
3. geopoint: the latitude/longitude mapping;
4. equal to the sentinel: the literal `firestore.SERVER_TIMESTAMP` string;
5. plain date/datetime: its `isoformat` text;
6. fallback: try the generic encoder — on success return the value itself;
   on TypeError return its string form (raising if the string conversion
   raises, since that happens inside the TypeError handler); on any other
   exception print a warning to the diagnostic stream and return the
   `Unserializable(...)` placeholder. -/
def json_serializer : PyVal → SerResult
  | PyVal.prim r => SerResult.val (JsonOut.jraw r) []
  | PyVal.timestampTD s n => SerResult.val (JsonOut.jstr (tsRender s n)) []
  | PyVal.sentinelObj => SerResult.raise "AttributeError: Sentinel has no attribute seconds"
  | PyVal.docRef p => SerResult.val (JsonOut.jstr ("Reference(path=\x27" ++ p ++ "\x27)")) []
  | PyVal.geoPoint lat lon => SerResult.val (JsonOut.jgeo lat lon) []
  | PyVal.eqSentinel => SerResult.val (JsonOut.jstr "firestore.SERVER_TIMESTAMP") []
  | PyVal.pydate iso => SerResult.val (JsonOut.jstr iso) []
  | PyVal.other ty d s =>
    match d with
    | DumpsOutcome.ok r => SerResult.val (JsonOut.jraw r) []
    | DumpsOutcome.typeError =>
      match s with
      | StrOutcome.ok str => SerResult.val (JsonOut.jstr str) []
      | StrOutcome.raisesStr m => SerResult.raise m
    | DumpsOutcome.otherError m =>
      SerResult.val (JsonOut.jstr ("Unserializable(" ++ ty ++ ")")) [serWarnMsg ty m]

/-- Text of one JSON value as the pretty printer would show it.  Escaping
and indentation are abstracted; only which value appears matters here. -/
def renderJson : JsonOut → String
  | JsonOut.jstr s => "\"" ++ s ++ "\""
  | JsonOut.jraw s => s
  | JsonOut.jgeo lat lon =>
    "\x7b\"latitude\": " ++ lat ++ ", \"longitude\": " ++ lon ++ "\x7d"

/-- Serialization of a whole document mapping by `json.dumps` with
`json_serializer` as hook (source lines 101-105): fields are rendered in
order; the hook is consulted per value; warnings it prints are collected on
the first component; an exception from the hook aborts the whole dump and
propagates (second component `error`).  Warnings printed before the aborting
field remain printed. -/
def serializeDoc : List (String × PyVal) → List String × Except String String
  | [] => ([], Except.ok "")
  | (k, v) :: rest =>
    match json_serializer v with
    | SerResult.raise m => ([], Except.error m)
    | SerResult.val j w =>
      match serializeDoc rest with
      | (ws, Except.error m) => (w ++ ws, Except.error m)
      | (ws, Except.ok s) =>
        (w ++ ws, Except.ok ("\"" ++ k ++ "\": " ++ renderJson j ++ "\n" ++ s))

/-- Boolean success test for the document serialization result. -/
def exOk : Except String String → Bool
  | Except.ok _ => true
  | Except.error _ => false

/-! ### The store model and the traversal engine

A `Store` is the remote tree as one run observes it: collections indexed by
their slash paths (encoded as lists of segments, alternating collection and
document ids).  Each collection has the list of document ids its stream
would yield, and optionally a position at which iterating that stream
raises; each document has a field mapping and a list of child collection
ids.  Lists make the branching finite at every node, while depth can be
unbounded, since the node data is indexed by arbitrary paths. -/

structure Store where
  docsOf : List String → List String
  errAt : List String → Option (Nat × String)
  subcolsOf : List String → List String
  dataOf : List String → List (String × PyVal)

/-- Last path segment: the id a collection reference reports. -/
def lastId (p : List String) : String := p.getLast?.getD ""

/-- Documents the issued query streams: all of them with the no-limit flag,
otherwise the first 5 (source lines 77-90: the query is either the bare
collection reference or the reference limited to 5). -/
def effectiveFetch (docs : List String) (noLimit : Bool) : List String :=
  if noLimit then docs else docs.take 5

/-- Documents the for-loop actually processes: the streamed documents,
truncated at the position where the stream raises, when it does. -/
def processedDocs (st : Store) (path : List String) (noLimit : Bool) : List String :=
  let eff := effectiveFetch (st.docsOf path) noLimit
  match st.errAt path with
  | some (n, _) => eff.take n
  | none => eff

/-- Error that the document stream of this collection raises during the
loop, when one manifests: the stream raises on the pull after `n` yielded
documents, provided the issued query still reaches that pull. -/
def streamErr (st : Store) (path : List String) (noLimit : Bool) : Option String :=
  let eff := effectiveFetch (st.docsOf path) noLimit
  match st.errAt path with
  | some (n, m) => if n ≤ eff.length then some m else none
  | none => none

/-- Print events of one run, one constructor per print site of
`dump_collection`.  Multi-line prints (the three header lines at source
lines 72-74, the two warning lines at 126-129) are bundled into one event.
The recorded depth is the `current_depth` of the emitting call; `serWarn`
events go to the diagnostic stream, all other events to standard output. -/
inductive Event where
  | depthNotice (colId : String) (maxDepth : Int) (depth : Nat)
  | colHeader (colId : String) (depth : Nat)
  | fetchAll (colId : String) (depth : Nat)
  | fetchLimited (colId : String) (depth : Nat)
  | docHeader (docId : String) (depth : Nat)
  | serWarn (msg : String)
  | docJson (text : String)
  | checkingSubcols (docId : String) (depth : Nat)
  | emptyNotice (colId : String) (depth : Nat)
  | colError (colId : String) (msg : String) (depth : Nat)
  deriving DecidableEq

/-- Sequential traversal of a list of subcollection paths: the trace of each
in order (the inner for-loop of source lines 114-117).  `none` propagates
fuel exhaustion of the recursive dump. -/
def runCols (dumpSub : List String → Option (List Event)) :
    List (List String) → Option (List Event)
  | [] => some []
  | p :: ps =>
    match dumpSub p, runCols dumpSub ps with
    | some t, some ts => some (t ++ ts)
    | _, _ => none

/-- The document loop of source lines 94-118 over the documents a collection
call processes.  For each document: the header print, then the serialized
field mapping — an exception from the serializer aborts the loop and is
reported as the second component, with the warnings printed so far kept —
then, when the document has child collections, the checking notice and the
recursive dump of each child in order. -/
def runDocs (dumpSub : List String → Option (List Event)) (st : Store)
    (path : List String) (depth : Nat) : List String → Option (List Event × Option String)
  | [] => some ([], none)
  | d :: ds =>
    let dpath := path ++ [d]
    let hdr := Event.docHeader d depth
    match serializeDoc (st.dataOf dpath) with
    | (warns, Except.error e) => some ([hdr] ++ warns.map Event.serWarn, some e)
    | (warns, Except.ok s) =>
      let subcols := st.subcolsOf dpath
      let subEvs :=
        if subcols.isEmpty then some []
        else
          match runCols dumpSub (subcols.map (fun c => dpath ++ [c])) with
          | none => none
          | some ts => some (Event.checkingSubcols d depth :: ts)
      match subEvs with
      | none => none
      | some sevs =>
        match runDocs dumpSub st path depth ds with
        | none => none
        | some (tr, e) =>
          some ([hdr] ++ warns.map Event.serWarn ++ [Event.docJson s] ++ sevs ++ tr, e)

/-- Fuel-indexed embedding of `dump_collection` (source lines 64-129).
`depth` is `current_depth` (a count of recursion levels, so a natural
number), `maxDepth` the command-line ceiling (an `int`, possibly negative).
Behaviour per the source: a call past the ceiling prints only the
depth-limit notice; otherwise the header block and the fetch message are
printed, the processed documents are handled by `runDocs`, and the
try/except at collection level turns a serializer exception or a manifest
stream error into the warning event, abandoning the rest of this collection
only; a completed loop over zero documents prints the empty notice.  `none`
signals fuel exhaustion, never reached from sufficient fuel. -/
def dumpFuel : Nat → Store → List String → Nat → Int → Bool → Option (List Event)
  | 0, _, _, _, _, _ => none
  | Nat.succ fuel, st, path, depth, maxDepth, noLimit =>
    let colId := lastId path
    if maxDepth < (depth : Int) then
      some [Event.depthNotice colId maxDepth depth]
    else
      let fetchEv := if noLimit then Event.fetchAll colId depth else Event.fetchLimited colId depth
      match runDocs (fun p => dumpFuel fuel st p (depth + 1) maxDepth noLimit)
          st path depth (processedDocs st path noLimit) with
      | none => none
      | some (tr, some e) =>
        some ([Event.colHeader colId depth, fetchEv] ++ tr ++ [Event.colError colId e depth])
      | some (tr, none) =>
        match streamErr st path noLimit with
        | some m =>
          some ([Event.colHeader colId depth, fetchEv] ++ tr ++ [Event.colError colId m depth])
        | none =>
          if (processedDocs st path noLimit).isEmpty then
            some ([Event.colHeader colId depth, fetchEv] ++ tr ++ [Event.emptyNotice colId depth])
          else
            some ([Event.colHeader colId depth, fetchEv] ++ tr)

/-- Fuel that always suffices for a call at this depth (shown by the
termination theorem below). -/
def fuelFor (depth : Nat) (maxDepth : Int) : Nat :=
  (maxDepth + 2 - (depth : Int)).toNat + 1

/-- The traversal itself: `dump_collection` with enough fuel. -/
def dump (st : Store) (path : List String) (depth : Nat) (maxDepth : Int)
    (noLimit : Bool) : List Event :=
  (dumpFuel (fuelFor depth maxDepth) st path depth maxDepth noLimit).getD []

/-- The root loop of source lines 234-237: every top-level collection is
dumped at depth 0 with the configured ceiling and limit flag. -/
def mainDump (st : Store) (roots : List String) (maxDepth : Int) (noLimit : Bool) :
    List Event :=
  (roots.map (fun c => dump st [c] 0 maxDepth noLimit)).flatten

/-- Count of document-header prints recorded at a given depth. -/
def headersAt (d : Nat) (tr : List Event) : Nat :=
  (tr.filter (fun e =>
    match e with
    | Event.docHeader _ dep => dep == d
    | _ => false)).length

/-! ### Startup model for the project-id claim

Source lines 189-205: the option map carrying the override is assembled and
announced, but the app-setup call on line 197 receives only the credential,
so the effective project identity is always the one the credential carries. -/

structure Credential where
  projectId : String
  deriving DecidableEq

structure App where
  projectId : String
  deriving DecidableEq

/-- Option map built on source lines 189-192: the credential plus, when the
command line supplies one, the override project id. -/
structure InitOptions where
  credProject : String
  projectOverride : Option String
  deriving DecidableEq

/-- App setup as the client library performs it when handed only a
credential: the app project is the project of the credential. -/
def initApp (cred : Credential) : App := App.mk cred.projectId

/-- The startup sequence of source lines 189-205: build the option map,
then set up the app passing only the credential (source line 197-199), so
the option map never reaches the setup call. -/
def mainInitApp (cred : Credential) (override : Option String) : App :=
  let _initOptions : InitOptions := InitOptions.mk cred.projectId override
  initApp cred

/-! ### Basic facts about the traversal -/

/-- A call past the depth ceiling prints the depth-limit notice and nothing
else, for any store and any fuel of the shape the wrapper supplies. -/
theorem dump_depth_exceeded (st : Store) (path : List String) (depth : Nat)
    (maxDepth : Int) (noLimit : Bool) (h : maxDepth < (depth : Int)) :
    dump st path depth maxDepth noLimit =
      [Event.depthNotice (lastId path) maxDepth depth] := by
  unfold dump fuelFor
  simp [dumpFuel, h]

/-- Concatenation splits the header count. -/
theorem headersAt_append (d : Nat) (a b : List Event) :
    headersAt d (a ++ b) = headersAt d a + headersAt d b := by
  simp [headersAt, List.filter_append]

/-- When every recursive dump completes, the subcollection loop completes. -/
theorem runCols_isSome (dumpSub : List String → Option (List Event))
    (h : ∀ p, (dumpSub p).isSome) :
    ∀ ps, (runCols dumpSub ps).isSome := by
  intro ps
  induction ps with
  | nil => simp [runCols]
  | cons p ps ih =>
    simp only [runCols]
    rcases hp : dumpSub p with _ | t
    · have := h p
      rw [hp] at this
      simp at this
    · rcases hq : runCols dumpSub ps with _ | ts
      · rw [hq] at ih
        simp at ih
      · simp

/-- When every recursive dump completes, the document loop completes. -/
theorem runDocs_isSome (dumpSub : List String → Option (List Event))
    (st : Store) (path : List String) (depth : Nat)
    (h : ∀ p, (dumpSub p).isSome) :
    ∀ ds, (runDocs dumpSub st path depth ds).isSome := by
  intro ds
  induction ds with
  | nil => simp [runDocs]
  | cons d ds ih =>
    simp only [runDocs]
    rcases hs : serializeDoc (st.dataOf (path ++ [d])) with ⟨warns, res⟩
    rcases res with e | s
    · simp
    · by_cases hemp : (st.subcolsOf (path ++ [d])).isEmpty
      · simp only [hemp, if_pos]
        rcases hr : runDocs dumpSub st path depth ds with _ | ⟨tr, e⟩
        · rw [hr] at ih
          simp at ih
        · simp
      · simp only [hemp, if_neg, Bool.false_eq_true, not_false_eq_true]
        rcases hc : runCols dumpSub ((st.subcolsOf (path ++ [d])).map
            (fun c => path ++ [d] ++ [c])) with _ | ts
        · have := runCols_isSome dumpSub h ((st.subcolsOf (path ++ [d])).map
            (fun c => path ++ [d] ++ [c]))
          rw [hc] at this
          simp at this
        · rcases hr : runDocs dumpSub st path depth ds with _ | ⟨tr, e⟩
          · rw [hr] at ih
            simp at ih
          · simp

/-- Termination argument of `dump_collection`: any fuel strictly above
`max_depth + 1 - depth` (clamped at zero) is enough for the traversal to
complete, whatever the store contains, because every recursive call raises
the depth by exactly one and a call past the ceiling returns at once. -/
theorem dumpFuel_total :
    ∀ (fuel : Nat) (st : Store) (path : List String) (depth : Nat)
      (maxDepth : Int) (noLimit : Bool),
      (maxDepth + 1 - (depth : Int)).toNat < fuel →
      (dumpFuel fuel st path depth maxDepth noLimit).isSome := by
  intro fuel
  induction fuel with
  | zero =>
    intro st path depth maxDepth noLimit h
    exact absurd h (Nat.not_lt_zero _)
  | succ fuel ih =>
    intro st path depth maxDepth noLimit h
    simp only [dumpFuel]
    by_cases hd : maxDepth < (depth : Int)
    · simp [hd]
    · rw [if_neg hd]
      have hsub : ∀ p, (dumpFuel fuel st p (depth + 1) maxDepth noLimit).isSome := by
        intro p
        apply ih
        omega
      have hr := runDocs_isSome _ st path depth hsub (processedDocs st path noLimit)
      rcases hrd : runDocs (fun p => dumpFuel fuel st p (depth + 1) maxDepth noLimit)
          st path depth (processedDocs st path noLimit) with _ | ⟨tr, e⟩
      · rw [hrd] at hr
        simp at hr
      · rcases e with _ | e
        · simp only []
          rcases streamErr st path noLimit with _ | m
          · by_cases he : (processedDocs st path noLimit).isEmpty <;> simp [he]
          · simp
        · simp

/-- Completed loop over an empty collection: header block, fetch message,
then the explicit empty notice. -/
theorem dump_empty_collection (st : Store) (path : List String) (depth : Nat)
    (maxDepth : Int) (noLimit : Bool) (h1 : (depth : Int) ≤ maxDepth)
    (h2 : st.docsOf path = []) (h3 : st.errAt path = none) :
    dump st path depth maxDepth noLimit =
      [Event.colHeader (lastId path) depth,
       (if noLimit then Event.fetchAll (lastId path) depth
        else Event.fetchLimited (lastId path) depth),
       Event.emptyNotice (lastId path) depth] := by
  have hnd : ¬ (maxDepth < (depth : Int)) := not_lt.mpr h1
  unfold dump fuelFor
  simp [dumpFuel, hnd, processedDocs, effectiveFetch, streamErr, runDocs, h2, h3]

/-! ### Concrete stores used by the witnesses -/

/-- Store with no data at all. -/
def stEmpty : Store where
  docsOf := fun _ => []
  errAt := fun _ => none
  subcolsOf := fun _ => []
  dataOf := fun _ => []

/-- Store with a root collection of two documents; the first document has
two subcollections, of which the first raises on fetch. -/
def stDemo : Store where
  docsOf := fun p =>
    if p = ["root"] then ["d1", "d2"]
    else if p = ["root", "d1", "bad"] then ["x1"]
    else if p = ["root", "d1", "good"] then ["g1"]
    else []
  errAt := fun p => if p = ["root", "d1", "bad"] then some (0, "permission denied") else none
  subcolsOf := fun p => if p = ["root", "d1"] then ["bad", "good"] else []
  dataOf := fun p => if p = ["root", "d1"] then [("a", PyVal.prim "1")] else []

/-! ### Claim theorems -/

/-- Claim C5: for every call dump(collection, depth, max_depth, unlimited)
with depth > max_depth, the traversal prints only a depth-limit notice and
returns: the whole trace is that single notice, so no documents of the
collection are fetched or printed and no descendant is visited, whatever
the store holds below (including non-empty descendants). -/
theorem C5_depth_limit_hard_stop (st : Store) (path : List String) (depth : Nat)
    (maxDepth : Int) (noLimit : Bool) (h : maxDepth < (depth : Int)) :
    dump st path depth maxDepth noLimit =
      [Event.depthNotice (lastId path) maxDepth depth] ∧
    ∀ d, headersAt d (dump st path depth maxDepth noLimit) = 0 := by
  have heq := dump_depth_exceeded st path depth maxDepth noLimit h
  refine ⟨heq, ?_⟩
  intro d
  rw [heq]
  simp [headersAt]

/-- Witness for C5 at a store whose collection has documents and deep
children: at depth 1 with ceiling 0 only the notice appears. -/
theorem C5_witness :
    dump stDemo ["root"] 1 0 false = [Event.depthNotice "root" 0 1] ∧
    headersAt 1 (dump stDemo ["root"] 1 0 false) = 0 := by
  have h := C5_depth_limit_hard_stop stDemo ["root"] 1 0 false (by decide)
  exact ⟨h.1, h.2 1⟩

/-- Claim C8: every visited collection that yields zero documents prints an
explicit empty-collection notice naming the collection, and no document
headers, rather than producing no output for it. -/
theorem C8_empty_collection_notice (st : Store) (path : List String) (depth : Nat)
    (maxDepth : Int) (noLimit : Bool) (h1 : (depth : Int) ≤ maxDepth)
    (h2 : st.docsOf path = []) (h3 : st.errAt path = none) :
    dump st path depth maxDepth noLimit =
      [Event.colHeader (lastId path) depth,
       (if noLimit then Event.fetchAll (lastId path) depth
        else Event.fetchLimited (lastId path) depth),
       Event.emptyNotice (lastId path) depth] ∧
    ∀ d, headersAt d (dump st path depth maxDepth noLimit) = 0 := by
  have heq := dump_empty_collection st path depth maxDepth noLimit h1 h2 h3
  refine ⟨heq, ?_⟩
  intro d
  rw [heq]
  cases noLimit <;> simp [headersAt]

/-- Witness for C8: an empty collection `users` at the root. -/
theorem C8_witness :
    dump stEmpty ["users"] 0 10 false =
      [Event.colHeader "users" 0, Event.fetchLimited "users" 0,
       Event.emptyNotice "users" 0] ∧
    headersAt 0 (dump stEmpty ["users"] 0 10 false) = 0 := by
  have h := C8_empty_collection_notice stEmpty ["users"] 0 10 false
    (by decide) (by decide) (by decide)
  exact ⟨h.1, h.2 0⟩

/-- Claim C9 (implicit): on every store — finitely many subcollections per
document and finitely many streamed documents per collection, both enforced
by the list-valued `Store` fields, with depth otherwise unbounded —
`dump_collection` terminates: any fuel exceeding `max_depth + 1 - depth`
completes, because each recursive call raises the depth by exactly one and
every call with depth > max_depth returns immediately. -/
theorem C9_termination (st : Store) (path : List String) (depth : Nat)
    (maxDepth : Int) (noLimit : Bool) (fuel : Nat)
    (h : (maxDepth + 1 - (depth : Int)).toNat < fuel) :
    (dumpFuel fuel st path depth maxDepth noLimit).isSome := by
  exact dumpFuel_total fuel st path depth maxDepth noLimit h

/-- Witness for C9 on the demo store with the default ceiling 10. -/
theorem C9_witness :
    (dumpFuel 12 stDemo ["root"] 0 10 false).isSome := by
  exact C9_termination stDemo ["root"] 0 10 false 12 (by decide)

/-- Claim C10 (implicit): with a negative --max-depth value, every root
collection is dumped at depth 0, which already exceeds the ceiling, so the
whole run prints exactly one depth-limit notice per root collection and no
collection contents. -/
theorem C10_negative_max_depth (st : Store) (roots : List String)
    (maxDepth : Int) (noLimit : Bool) (h : maxDepth < 0) :
    mainDump st roots maxDepth noLimit =
      roots.map (fun c => Event.depthNotice c maxDepth 0) := by
  unfold mainDump
  induction roots with
  | nil => simp
  | cons c cs ih =>
    simp only [List.map_cons, List.flatten_cons]
    rw [dump_depth_exceeded st [c] 0 maxDepth noLimit (by omega)]
    rw [ih]
    simp [lastId]

/-- Witness for C10: two root collections with data below them, ceiling -3. -/
theorem C10_witness :
    mainDump stDemo ["root", "other"] (-3) false =
      [Event.depthNotice "root" (-3) 0, Event.depthNotice "other" (-3) 0] := by
  exact C10_negative_max_depth stDemo ["root", "other"] (-3) false (by decide)

/-- A document whose every field the serializer can return a value for is
serialized successfully: the dump of the mapping completes. -/
theorem serializeDoc_ok (fields : List (String × PyVal))
    (h : ∀ kv ∈ fields, ∃ j w, json_serializer kv.2 = SerResult.val j w) :
    exOk (serializeDoc fields).2 = true := by
  induction fields with
  | nil => rfl
  | cons kv rest ih =>
    obtain ⟨k, v⟩ := kv
    obtain ⟨j, w, hj⟩ := h (k, v) (List.mem_cons_self _ _)
    have ihr := ih (fun kv hm => h kv (List.mem_cons_of_mem _ hm))
    simp only [serializeDoc, hj]
    rcases hrest : serializeDoc rest with ⟨ws, res⟩
    rcases res with e | s
    · rw [hrest] at ihr
      simp [exOk] at ihr
    · simp [exOk]

/-- Document loop with no serializer failure and total recursive dumps:
the loop completes without an exception reaching the collection level. -/
theorem runDocs_ok (dumpSub : List String → Option (List Event)) (st : Store)
    (path : List String) (depth : Nat)
    (hsub : ∀ p, (dumpSub p).isSome) :
    ∀ ds, (∀ d ∈ ds, exOk (serializeDoc (st.dataOf (path ++ [d]))).2 = true) →
      ∃ tr, runDocs dumpSub st path depth ds = some (tr, none) := by
  intro ds
  induction ds with
  | nil => exact fun _ => ⟨[], rfl⟩
  | cons d ds ih =>
    intro hser
    have hk := hser d (List.mem_cons_self _ _)
    rcases hs : serializeDoc (st.dataOf (path ++ [d])) with ⟨warns, res⟩
    rcases res with e | s
    · rw [hs] at hk
      simp [exOk] at hk
    · obtain ⟨tr, hr⟩ := ih (fun d hm => hser d (List.mem_cons_of_mem _ hm))
      simp only [runDocs, hs]
      by_cases hemp : (st.subcolsOf (path ++ [d])).isEmpty
      · simp only [hemp, if_pos, hr]
        exact ⟨_, rfl⟩
      · obtain ⟨ts, hts⟩ := Option.isSome_iff_exists.mp
          (runCols_isSome dumpSub hsub ((st.subcolsOf (path ++ [d])).map
            (fun c => path ++ [d] ++ [c])))
        simp only [hemp, Bool.false_eq_true, if_neg, not_false_eq_true, hts, hr]
        exact ⟨_, rfl⟩

/-- Tail of a collection trace after the document loop: the collection-level
warning when an exception was caught, else the warning for a manifest stream
error, else the empty notice when no document was processed. -/
def colTail (st : Store) (path : List String) (dep : Nat) (nl : Bool)
    (e2 : Option String) : List Event :=
  match e2 with
  | some e => [Event.colError (lastId path) e dep]
  | none =>
    match streamErr st path nl with
    | some m => [Event.colError (lastId path) m dep]
    | none =>
      if (processedDocs st path nl).isEmpty then [Event.emptyNotice (lastId path) dep] else []

/-- The tail never holds a document header. -/
theorem headersAt_colTail (d : Nat) (st : Store) (path : List String) (dep : Nat)
    (nl : Bool) (e2 : Option String) : headersAt d (colTail st path dep nl e2) = 0 := by
  rcases e2 with _ | e
  · simp only [colTail]
    rcases streamErr st path nl with _ | m
    · by_cases he : (processedDocs st path nl).isEmpty <;> simp [he, headersAt]
    · rfl
  · rfl

/-- One unfolding of `dumpFuel` below the ceiling, with the document loop
result given: the trace is the header block and fetch message, the loop
trace, and the tail. -/
theorem dumpFuel_succ_eq (fuel : Nat) (st : Store) (path : List String)
    (dep : Nat) (maxD : Int) (nl : Bool) (hlt : ¬ maxD < (dep : Int))
    (tr2 : List Event) (e2 : Option String)
    (hr : runDocs (fun p => dumpFuel fuel st p (dep + 1) maxD nl) st path dep
      (processedDocs st path nl) = some (tr2, e2)) :
    dumpFuel (fuel + 1) st path dep maxD nl =
      some ([Event.colHeader (lastId path) dep,
        if nl = true then Event.fetchAll (lastId path) dep
        else Event.fetchLimited (lastId path) dep] ++ tr2 ++
        colTail st path dep nl e2) := by
  simp only [dumpFuel]
  rw [if_neg hlt, hr]
  rcases e2 with _ | e
  · simp only [colTail]
    rcases streamErr st path nl with _ | m
    · by_cases he : (processedDocs st path nl).isEmpty <;> simp [he]
    · rfl
  · rfl

/-- One unfolding of `dumpFuel` below the ceiling when the document loop
runs out of fuel. -/
theorem dumpFuel_succ_none (fuel : Nat) (st : Store) (path : List String)
    (dep : Nat) (maxD : Int) (nl : Bool) (hlt : ¬ maxD < (dep : Int))
    (hr : runDocs (fun p => dumpFuel fuel st p (dep + 1) maxD nl) st path dep
      (processedDocs st path nl) = none) :
    dumpFuel (fuel + 1) st path dep maxD nl = none := by
  simp only [dumpFuel]
  rw [if_neg hlt, hr]

/-- A member trace of a completed subcollection loop is embedded whole in
the loop trace. -/
theorem runCols_embedded (dumpSub : List String → Option (List Event)) :
    ∀ (ps : List (List String)) (p : List String) (t : List Event), p ∈ ps →
      runCols dumpSub ps = some t →
      ∃ tp pre post, dumpSub p = some tp ∧ t = pre ++ tp ++ post := by
  intro ps
  induction ps with
  | nil =>
    intro p t hp
    cases hp
  | cons q ps ih =>
    intro p t hp ht
    simp only [runCols] at ht
    rcases hq : dumpSub q with _ | t1 <;> rw [hq] at ht
    · cases ht
    · rcases hr : runCols dumpSub ps with _ | ts <;> rw [hr] at ht
      · cases ht
      · simp only [Option.some.injEq] at ht
        subst ht
        rcases List.mem_cons.mp hp with h | h
        · subst h
          exact ⟨t1, [], ts, hq, by simp⟩
        · obtain ⟨tp, pre, post, hsub, heq⟩ := ih p ts h hr
          exact ⟨tp, t1 ++ pre, post, hsub, by rw [heq]; simp⟩

/-- With no serializer failure in the processed documents, the recursive
trace of every subcollection of every processed document is embedded whole
in the document-loop trace: discovered subcollections are all processed,
whatever happens inside any one of them. -/
theorem runDocs_embedded (dumpSub : List String → Option (List Event))
    (st : Store) (path : List String) (dep : Nat) :
    ∀ (ds : List String) (tr : List Event) (e : Option String),
      runDocs dumpSub st path dep ds = some (tr, e) →
      (∀ d' ∈ ds, exOk (serializeDoc (st.dataOf (path ++ [d']))).2 = true) →
      ∀ dc ∈ ds, ∀ c ∈ st.subcolsOf (path ++ [dc]),
        ∃ tc pre post, dumpSub (path ++ [dc] ++ [c]) = some tc ∧
          tr = pre ++ tc ++ post := by
  intro ds
  induction ds with
  | nil =>
    intro tr e ht hser dc hdc
    cases hdc
  | cons d0 ds ih =>
    intro tr e ht hser dc hdc c hc
    simp only [runDocs] at ht
    rcases hx : serializeDoc (st.dataOf (path ++ [d0])) with ⟨warns, res⟩
    have hok := hser d0 (List.mem_cons_self _ _)
    rw [hx] at ht hok
    rcases res with e0 | s
    · simp [exOk] at hok
    · by_cases hemp : (st.subcolsOf (path ++ [d0])).isEmpty
      · rw [if_pos hemp] at ht
        rcases hr : runDocs dumpSub st path dep ds with _ | ⟨tr2, e2⟩ <;> rw [hr] at ht
        · cases ht
        · simp only [Option.some.injEq, Prod.mk.injEq] at ht
          obtain ⟨htr, hte⟩ := ht
          rcases List.mem_cons.mp hdc with h | h
          · subst h
            have hnil : st.subcolsOf (path ++ [dc]) = [] := by
              simpa using hemp
            rw [hnil] at hc
            cases hc
          · obtain ⟨tc, pre, post, hs2, he2⟩ :=
              ih tr2 e2 hr (fun d' hm => hser d' (List.mem_cons_of_mem _ hm)) dc h c hc
            refine ⟨tc, ([Event.docHeader d0 dep] ++ warns.map Event.serWarn ++
              [Event.docJson s] ++ []) ++ pre, post, hs2, ?_⟩
            rw [← htr, he2]
            simp
      · rw [if_neg hemp] at ht
        rcases hcc : runCols dumpSub ((st.subcolsOf (path ++ [d0])).map
            (fun c => path ++ [d0] ++ [c])) with _ | ts <;> rw [hcc] at ht
        · cases ht
        · rcases hr : runDocs dumpSub st path dep ds with _ | ⟨tr2, e2⟩ <;> rw [hr] at ht
          · cases ht
          · simp only [Option.some.injEq, Prod.mk.injEq] at ht
            obtain ⟨htr, hte⟩ := ht
            rcases List.mem_cons.mp hdc with h | h
            · subst h
              have hmem : (path ++ [dc] ++ [c]) ∈
                  (st.subcolsOf (path ++ [dc])).map (fun c => path ++ [dc] ++ [c]) :=
                List.mem_map_of_mem _ hc
              obtain ⟨tc, pre, post, hs2, he2⟩ := runCols_embedded dumpSub _ _ _ hmem hcc
              refine ⟨tc, [Event.docHeader dc dep] ++ warns.map Event.serWarn ++
                [Event.docJson s] ++ [Event.checkingSubcols dc dep] ++ pre,
                post ++ tr2, hs2, ?_⟩
              rw [← htr, he2]
              simp
            · obtain ⟨tc, pre, post, hs2, he2⟩ :=
                ih tr2 e2 hr (fun d' hm => hser d' (List.mem_cons_of_mem _ hm)) dc h c hc
              refine ⟨tc, ([Event.docHeader d0 dep] ++ warns.map Event.serWarn ++
                [Event.docJson s] ++ (Event.checkingSubcols d0 dep :: ts)) ++ pre,
                post, hs2, ?_⟩
              rw [← htr, he2]
              simp

/-- One step of the wrapper fuel below the ceiling. -/
theorem fuelFor_step (depth : Nat) (maxDepth : Int) (h : (depth : Int) ≤ maxDepth) :
    fuelFor depth maxDepth = fuelFor (depth + 1) maxDepth + 1 := by
  unfold fuelFor
  omega

/-- The wrapper fuel always completes, so the fuel-indexed traversal at the
wrapper fuel is exactly the wrapped traversal. -/
theorem dumpFuel_fuelFor_some (st : Store) (p : List String) (depth : Nat)
    (maxDepth : Int) (noLimit : Bool) :
    dumpFuel (fuelFor depth maxDepth) st p depth maxDepth noLimit =
      some (dump st p depth maxDepth noLimit) := by
  have hs := dumpFuel_total (fuelFor depth maxDepth) st p depth maxDepth noLimit
    (by unfold fuelFor; omega)
  unfold dump
  rcases hx : dumpFuel (fuelFor depth maxDepth) st p depth maxDepth noLimit with _ | t
  · rw [hx] at hs
    cases hs
  · rfl

/-- The wrapped traversal below the ceiling, with the document loop result
given. -/
theorem dump_succ_eq (st : Store) (path : List String) (depth : Nat)
    (maxDepth : Int) (noLimit : Bool) (h : (depth : Int) ≤ maxDepth)
    (tr2 : List Event) (e2 : Option String)
    (hr : runDocs (fun p => dumpFuel (fuelFor (depth + 1) maxDepth) st p (depth + 1)
        maxDepth noLimit) st path depth (processedDocs st path noLimit) =
      some (tr2, e2)) :
    dump st path depth maxDepth noLimit =
      [Event.colHeader (lastId path) depth,
        if noLimit = true then Event.fetchAll (lastId path) depth
        else Event.fetchLimited (lastId path) depth] ++ tr2 ++
        colTail st path depth noLimit e2 := by
  unfold dump
  rw [fuelFor_step depth maxDepth h]
  rw [dumpFuel_succ_eq (fuelFor (depth + 1) maxDepth) st path depth maxDepth noLimit
    (not_lt.mpr h) tr2 e2 hr]
  rfl

/-- A collection whose stream raises, with no serializer failure among the
documents processed first: the trace is the header block, the processed
prefix, and the warning naming the collection and the error — and nothing
after it, so only this collection's remaining subtree is dropped. -/
theorem dump_stream_err (st : Store) (path : List String) (depth : Nat)
    (maxDepth : Int) (noLimit : Bool) (msg : String)
    (h1 : (depth : Int) ≤ maxDepth) (hm : streamErr st path noLimit = some msg)
    (hser : ∀ d ∈ processedDocs st path noLimit,
      exOk (serializeDoc (st.dataOf (path ++ [d]))).2 = true) :
    ∃ tr, dump st path depth maxDepth noLimit =
      [Event.colHeader (lastId path) depth,
        if noLimit = true then Event.fetchAll (lastId path) depth
        else Event.fetchLimited (lastId path) depth] ++ tr ++
        [Event.colError (lastId path) msg depth] := by
  have hsub : ∀ p, (dumpFuel (fuelFor (depth + 1) maxDepth) st p (depth + 1)
      maxDepth noLimit).isSome := by
    intro p
    exact dumpFuel_total _ st p (depth + 1) maxDepth noLimit (by unfold fuelFor; omega)
  obtain ⟨tr, hr⟩ := runDocs_ok _ st path depth hsub _ hser
  refine ⟨tr, ?_⟩
  rw [dump_succ_eq st path depth maxDepth noLimit h1 tr none hr]
  simp [colTail, hm]

/-- Every subcollection of every processed document of a collection below
the ceiling (with no serializer failure in that collection) has its whole
recursive dump embedded in the collection trace. -/
theorem dump_sub_embedded (st : Store) (path : List String) (depth : Nat)
    (maxDepth : Int) (noLimit : Bool) (d c : String)
    (h1 : (depth : Int) ≤ maxDepth)
    (hser : ∀ d' ∈ processedDocs st path noLimit,
      exOk (serializeDoc (st.dataOf (path ++ [d']))).2 = true)
    (hd : d ∈ processedDocs st path noLimit)
    (hc : c ∈ st.subcolsOf (path ++ [d])) :
    ∃ pre post, dump st path depth maxDepth noLimit =
      pre ++ dump st (path ++ [d] ++ [c]) (depth + 1) maxDepth noLimit ++ post := by
  have hsub : ∀ p, (dumpFuel (fuelFor (depth + 1) maxDepth) st p (depth + 1)
      maxDepth noLimit).isSome := by
    intro p
    exact dumpFuel_total _ st p (depth + 1) maxDepth noLimit (by unfold fuelFor; omega)
  obtain ⟨tr, hr⟩ := runDocs_ok _ st path depth hsub _ hser
  obtain ⟨tc, pre, post, hfc, htr⟩ :=
    runDocs_embedded _ st path depth _ tr none hr hser d hd c hc
  have htc : tc = dump st (path ++ [d] ++ [c]) (depth + 1) maxDepth noLimit := by
    have hval := dumpFuel_fuelFor_some st (path ++ [d] ++ [c]) (depth + 1) maxDepth noLimit
    rw [hfc] at hval
    exact (Option.some.injEq _ _).mp hval
  refine ⟨[Event.colHeader (lastId path) depth,
      if noLimit = true then Event.fetchAll (lastId path) depth
      else Event.fetchLimited (lastId path) depth] ++ pre,
    post ++ colTail st path depth noLimit none, ?_⟩
  rw [dump_succ_eq st path depth maxDepth noLimit h1 tr none hr, htr, htc]
  simp

/-- Claim C7: a collection whose fetch or iteration raises produces a
warning naming that collection and the error as the final print of its
trace, abandoning only the rest of that collection's subtree (first
conjunct: the trace is the processed prefix followed by the warning, and
the traversal returns normally); and every subcollection discovered on any
processed document has its full recursive dump embedded in the parent
trace, so siblings at the same level and collections discovered before the
error are still processed (second conjunct). -/
theorem C7_collection_error_isolated :
    (∀ (st : Store) (path : List String) (depth : Nat) (maxDepth : Int)
       (noLimit : Bool) (msg : String), (depth : Int) ≤ maxDepth →
       streamErr st path noLimit = some msg →
       (∀ d ∈ processedDocs st path noLimit,
         exOk (serializeDoc (st.dataOf (path ++ [d]))).2 = true) →
       ∃ tr, dump st path depth maxDepth noLimit =
         [Event.colHeader (lastId path) depth,
           if noLimit = true then Event.fetchAll (lastId path) depth
           else Event.fetchLimited (lastId path) depth] ++ tr ++
           [Event.colError (lastId path) msg depth]) ∧
    (∀ (st : Store) (path : List String) (depth : Nat) (maxDepth : Int)
       (noLimit : Bool) (d c : String), (depth : Int) ≤ maxDepth →
       (∀ d' ∈ processedDocs st path noLimit,
         exOk (serializeDoc (st.dataOf (path ++ [d']))).2 = true) →
       d ∈ processedDocs st path noLimit →
       c ∈ st.subcolsOf (path ++ [d]) →
       ∃ pre post, dump st path depth maxDepth noLimit =
         pre ++ dump st (path ++ [d] ++ [c]) (depth + 1) maxDepth noLimit ++ post) := by
  constructor
  · intro st path depth maxDepth noLimit msg h1 hm hser
    exact dump_stream_err st path depth maxDepth noLimit msg h1 hm hser
  · intro st path depth maxDepth noLimit d c h1 hser hd hc
    exact dump_sub_embedded st path depth maxDepth noLimit d c h1 hser hd hc

/-- Witness for C7 on the demo store: the erroring subcollection `bad` ends
in the warning naming it, and the sibling subcollection `good`, discovered
on the same document, has its full dump embedded in the root trace. -/
theorem C7_witness :
    (∃ tr, dump stDemo ["root", "d1", "bad"] 1 10 false =
      [Event.colHeader "bad" 1, Event.fetchLimited "bad" 1] ++ tr ++
      [Event.colError "bad" "permission denied" 1]) ∧
    (∃ pre post, dump stDemo ["root"] 0 10 false =
      pre ++ dump stDemo ["root", "d1", "good"] 1 10 false ++ post) := by
  constructor
  · exact C7_collection_error_isolated.1 stDemo ["root", "d1", "bad"] 1 10 false
      "permission denied" (by decide) (by decide) (by decide)
  · exact C7_collection_error_isolated.2 stDemo ["root"] 0 10 false "d1" "good"
      (by decide) (by decide) (by decide) (by decide)

/-- Claim C1 (code bug): evaluation of the serializer at the timestamp the
spec itself uses as its example, seconds = 1709294400 (2024-03-01 noon UTC)
and nanos = 0.  The code renders the aware-datetime offset text `+00:00`
and then appends the further literal `Z` on top, so the output is not the
`...Z`-suffixed ISO form the claim states (the second conjunct); the claim
and the code comment agree on the intent, the appended `Z` on an
offset-bearing rendering is the slip. -/
theorem C1_timestamp_offset_bug :
    json_serializer (PyVal.timestampTD 1709294400 0) =
      SerResult.val (JsonOut.jstr "2024-03-01T12:00:00.000+00:00Z") [] ∧
    "2024-03-01T12:00:00.000+00:00Z" ≠ "2024-03-01T12:00:00.000Z" := by
  constructor
  · decide
  · decide

/-- Claim C2 (code bug): the startup sequence assembles the option map with
the override, then hands the setup call only the credential, so the
effective project identity is always the credential project; at the
concrete input, an override `cli-override` over a credential for
`project-from-key` leaves the app on `project-from-key`. -/
theorem C2_project_override_ignored :
    (∀ (cred : Credential) (override : Option String),
      mainInitApp cred override = initApp cred) ∧
    mainInitApp (Credential.mk "project-from-key") (some "cli-override") =
      App.mk "project-from-key" ∧
    "project-from-key" ≠ "cli-override" := by
  refine ⟨fun cred override => rfl, rfl, by decide⟩

/-- Counterexample to claim C3 as stated: at `Foo` (generic encoding raises
a TypeError, string form `Foo()`), serialization of the value fails yet the
serializer returns the replacement with an empty diagnostic list — nothing
is logged; and at `Bar` (string conversion itself raises), the serializer
raises, so the exception reaches the collection-level handler and the
document and its collection are abandoned, contradicting both the "is
logged" and the "never abandons" parts. -/
theorem C3_counterexample :
    json_serializer (PyVal.other "Foo" DumpsOutcome.typeError (StrOutcome.ok "Foo()")) =
      SerResult.val (JsonOut.jstr "Foo()") [] ∧
    json_serializer (PyVal.other "Bar" DumpsOutcome.typeError (StrOutcome.raisesStr "boom")) =
      SerResult.raise "boom" :=
  ⟨rfl, rfl⟩

/-- Claim C3 as amended: a field value whose generic encoding fails with a
TypeError and whose string form is computable is replaced inline by its
string form with nothing logged; a value whose generic encoding fails with
any other exception is logged to the diagnostic stream and replaced by the
`Unserializable` placeholder; and whenever the serializer returns a
replacement rather than raising, the surrounding document (third conjunct)
and the document loop of the traversal (fourth conjunct) complete
unaffected. -/
theorem C3_per_value_failure_amended :
    (∀ ty s, json_serializer (PyVal.other ty DumpsOutcome.typeError (StrOutcome.ok s)) =
       SerResult.val (JsonOut.jstr s) []) ∧
    (∀ ty m sf, json_serializer (PyVal.other ty (DumpsOutcome.otherError m) sf) =
       SerResult.val (JsonOut.jstr ("Unserializable(" ++ ty ++ ")")) [serWarnMsg ty m]) ∧
    (∀ fields : List (String × PyVal),
       (∀ kv ∈ fields, ∃ j w, json_serializer kv.2 = SerResult.val j w) →
       exOk (serializeDoc fields).2 = true) ∧
    (∀ (dumpSub : List String → Option (List Event)) (st : Store)
       (path : List String) (depth : Nat) (ds : List String),
       (∀ p, (dumpSub p).isSome) →
       (∀ d ∈ ds, exOk (serializeDoc (st.dataOf (path ++ [d]))).2 = true) →
       ∃ tr, runDocs dumpSub st path depth ds = some (tr, none)) := by
  refine ⟨fun ty s => rfl, fun ty m sf => rfl, serializeDoc_ok, ?_⟩
  intro dumpSub st path depth ds hsub hser
  exact runDocs_ok dumpSub st path depth hsub ds hser

/-- Witness for the amended C3: a concrete document with a reference field
and a TypeError-fallback field serializes completely, and a concrete
document loop completes without an exception escalating. -/
theorem C3_witness :
    exOk (serializeDoc [("f", PyVal.docRef "a/b/c"),
      ("g", PyVal.other "Foo" DumpsOutcome.typeError (StrOutcome.ok "Foo()"))]).2 = true ∧
    ∃ tr, runDocs (fun _ => some []) stEmpty ["users"] 0 ["d1"] = some (tr, none) := by
  constructor
  · apply C3_per_value_failure_amended.2.2.1
    intro kv hm
    simp only [List.mem_cons, List.mem_singleton] at hm
    rcases hm with h | h | h
    · subst h
      exact ⟨_, _, rfl⟩
    · subst h
      exact ⟨_, _, rfl⟩
    · cases h
  · exact C3_per_value_failure_amended.2.2.2 (fun _ => some []) stEmpty ["users"] 0 ["d1"]
      (fun p => rfl) (by decide)

/-- Counterexample to claim C4 as stated: at `CircList` the generic
encoding fails (with a non-TypeError exception) and the serializer does not
return the string form `[...]` it would have per the claim, but the
`Unserializable` placeholder; and at `Baz` the string conversion raises,
and instead of the claimed `Unserializable` result the serializer lets the
exception propagate. -/
theorem C4_counterexample :
    json_serializer (PyVal.other "CircList"
        (DumpsOutcome.otherError "Circular reference detected") (StrOutcome.ok "[...]")) =
      SerResult.val (JsonOut.jstr "Unserializable(CircList)")
        [serWarnMsg "CircList" "Circular reference detected"] ∧
    JsonOut.jstr "Unserializable(CircList)" ≠ JsonOut.jstr "[...]" ∧
    json_serializer (PyVal.other "Baz" DumpsOutcome.typeError (StrOutcome.raisesStr "strfail")) =
      SerResult.raise "strfail" := by
  refine ⟨rfl, by decide, rfl⟩

/-- Header count of a singleton trace is at most one. -/
theorem headersAt_single_le (d : Nat) (e : Event) : headersAt d [e] ≤ 1 := by
  rcases e <;> simp [headersAt, List.filter_cons]
  split <;> simp

/-- A document header of a different depth is not counted. -/
theorem headersAt_docHeader_ne (d dep : Nat) (i : String) (hne : ¬ dep = d) :
    headersAt d [Event.docHeader i dep] = 0 := by
  simp [headersAt, List.filter_cons, hne]

/-- The collection header block and the fetch message carry no document
header. -/
theorem headersAt_colIntro (d : Nat) (c : String) (dep : Nat) (nl : Bool) :
    headersAt d [Event.colHeader c dep,
      if nl = true then Event.fetchAll c dep else Event.fetchLimited c dep] = 0 := by
  cases nl <;> rfl

/-- Prepending one event splits the header count. -/
theorem headersAt_cons (d : Nat) (e : Event) (tr : List Event) :
    headersAt d (e :: tr) = headersAt d [e] + headersAt d tr :=
  headersAt_append d [e] tr

/-- Serializer warnings are diagnostic events, never document headers. -/
theorem headersAt_serWarns (d : Nat) (ws : List String) :
    headersAt d (ws.map Event.serWarn) = 0 := by
  induction ws with
  | nil => rfl
  | cons w ws ih =>
    rw [List.map_cons, headersAt_cons, ih]
    rfl

/-- A subcollection loop whose every recursive trace holds no headers at a
given depth contributes no headers at that depth. -/
theorem runCols_headersAt_zero (dumpSub : List String → Option (List Event)) (d : Nat)
    (h : ∀ p t, dumpSub p = some t → headersAt d t = 0) :
    ∀ ps t, runCols dumpSub ps = some t → headersAt d t = 0 := by
  intro ps
  induction ps with
  | nil =>
    intro t ht
    simp only [runCols, Option.some.injEq] at ht
    subst ht
    rfl
  | cons p ps ih =>
    intro t ht
    simp only [runCols] at ht
    rcases hp : dumpSub p with _ | t1 <;> rw [hp] at ht
    · cases ht
    · rcases hq : runCols dumpSub ps with _ | ts <;> rw [hq] at ht
      · cases ht
      · simp only [Option.some.injEq] at ht
        subst ht
        rw [headersAt_append, h p t1 hp, ih ts hq]

/-- The document loop prints at most one header per processed document at
its own depth, and none at depths where the recursive traces hold none. -/
theorem runDocs_headersAt_le (dumpSub : List String → Option (List Event))
    (st : Store) (path : List String) (dep d : Nat)
    (hsub : ∀ p t, dumpSub p = some t → headersAt d t = 0) :
    ∀ ds tr e, runDocs dumpSub st path dep ds = some (tr, e) →
      headersAt d tr ≤ ds.length := by
  intro ds
  induction ds with
  | nil =>
    intro tr e ht
    simp only [runDocs, Option.some.injEq, Prod.mk.injEq] at ht
    rw [← ht.1]
    simp [headersAt]
  | cons dc ds ih =>
    intro tr e ht
    simp only [runDocs] at ht
    rcases hs : serializeDoc (st.dataOf (path ++ [dc])) with ⟨warns, res⟩
    rw [hs] at ht
    have hone := headersAt_single_le d (Event.docHeader dc dep)
    rcases res with em | s
    · simp only [Option.some.injEq, Prod.mk.injEq] at ht
      rw [← ht.1, headersAt_append, headersAt_serWarns, List.length_cons]
      omega
    · by_cases hemp : (st.subcolsOf (path ++ [dc])).isEmpty
      · rw [if_pos hemp] at ht
        rcases hr : runDocs dumpSub st path dep ds with _ | ⟨tr2, e2⟩ <;> rw [hr] at ht
        · cases ht
        · simp only [Option.some.injEq, Prod.mk.injEq] at ht
          rw [← ht.1]
          have h1 := ih tr2 e2 hr
          rw [headersAt_append, headersAt_append, headersAt_append, headersAt_append,
            headersAt_serWarns, List.length_cons]
          have h3 : headersAt d [Event.docJson s] = 0 := rfl
          have h4 : headersAt d ([] : List Event) = 0 := rfl
          omega
      · rw [if_neg hemp] at ht
        rcases hc : runCols dumpSub ((st.subcolsOf (path ++ [dc])).map
            (fun c => path ++ [dc] ++ [c])) with _ | ts <;> rw [hc] at ht
        · cases ht
        · rcases hr : runDocs dumpSub st path dep ds with _ | ⟨tr2, e2⟩ <;> rw [hr] at ht
          · cases ht
          · simp only [Option.some.injEq, Prod.mk.injEq] at ht
            rw [← ht.1]
            have h1 := ih tr2 e2 hr
            have h2 := runCols_headersAt_zero dumpSub d hsub _ ts hc
            rw [headersAt_append, headersAt_append, headersAt_append, headersAt_append,
              headersAt_serWarns, headersAt_cons d (Event.checkingSubcols dc dep) ts,
              h2, List.length_cons]
            have h3 : headersAt d [Event.docJson s] = 0 := rfl
            have h5 : headersAt d [Event.checkingSubcols dc dep] = 0 := rfl
            omega

/-- The document loop prints nothing at a depth other than its own when the
recursive traces hold nothing there either. -/
theorem runDocs_headersAt_zero (dumpSub : List String → Option (List Event))
    (st : Store) (path : List String) (dep d : Nat) (hne : d ≠ dep)
    (hsub : ∀ p t, dumpSub p = some t → headersAt d t = 0) :
    ∀ ds tr e, runDocs dumpSub st path dep ds = some (tr, e) →
      headersAt d tr = 0 := by
  intro ds
  induction ds with
  | nil =>
    intro tr e ht
    simp only [runDocs, Option.some.injEq, Prod.mk.injEq] at ht
    rw [← ht.1]
    rfl
  | cons dc ds ih =>
    intro tr e ht
    simp only [runDocs] at ht
    rcases hs : serializeDoc (st.dataOf (path ++ [dc])) with ⟨warns, res⟩
    rw [hs] at ht
    have hhd := headersAt_docHeader_ne d dep dc (fun h => hne h.symm)
    rcases res with em | s
    · simp only [Option.some.injEq, Prod.mk.injEq] at ht
      rw [← ht.1, headersAt_append, headersAt_serWarns, hhd]
    · by_cases hemp : (st.subcolsOf (path ++ [dc])).isEmpty
      · rw [if_pos hemp] at ht
        rcases hr : runDocs dumpSub st path dep ds with _ | ⟨tr2, e2⟩ <;> rw [hr] at ht
        · cases ht
        · simp only [Option.some.injEq, Prod.mk.injEq] at ht
          rw [← ht.1]
          have h1 := ih tr2 e2 hr
          rw [headersAt_append, headersAt_append, headersAt_append, headersAt_append,
            headersAt_serWarns, hhd, h1]
          rfl
      · rw [if_neg hemp] at ht
        rcases hc : runCols dumpSub ((st.subcolsOf (path ++ [dc])).map
            (fun c => path ++ [dc] ++ [c])) with _ | ts <;> rw [hc] at ht
        · cases ht
        · rcases hr : runDocs dumpSub st path dep ds with _ | ⟨tr2, e2⟩ <;> rw [hr] at ht
          · cases ht
          · simp only [Option.some.injEq, Prod.mk.injEq] at ht
            rw [← ht.1]
            have h1 := ih tr2 e2 hr
            have h2 := runCols_headersAt_zero dumpSub d hsub _ ts hc
            rw [headersAt_append, headersAt_append, headersAt_append, headersAt_append,
              headersAt_serWarns, headersAt_cons d (Event.checkingSubcols dc dep) ts,
              hhd, h1, h2]
            rfl

/-- Below its own depth a dump prints no document headers: every header of
a deeper collection carries that deeper depth. -/
theorem dumpFuel_headersAt_lt :
    ∀ (fuel : Nat) (st : Store) (path : List String) (dep : Nat) (maxD : Int)
      (nl : Bool) (tr : List Event), dumpFuel fuel st path dep maxD nl = some tr →
      ∀ d, d < dep → headersAt d tr = 0 := by
  intro fuel
  induction fuel with
  | zero =>
    intro st path dep maxD nl tr ht
    cases ht
  | succ fuel ih =>
    intro st path dep maxD nl tr ht d hd
    by_cases hlt : maxD < (dep : Int)
    · simp only [dumpFuel, if_pos hlt, Option.some.injEq] at ht
      rw [← ht]
      simp [headersAt]
    · have hsub : ∀ p t, dumpFuel fuel st p (dep + 1) maxD nl = some t →
          headersAt d t = 0 := by
        intro p t hpt
        exact ih st p (dep + 1) maxD nl t hpt d (by omega)
      rcases hr : runDocs (fun p => dumpFuel fuel st p (dep + 1) maxD nl)
          st path dep (processedDocs st path nl) with _ | ⟨tr2, e2⟩
      · rw [dumpFuel_succ_none fuel st path dep maxD nl hlt hr] at ht
        cases ht
      · rw [dumpFuel_succ_eq fuel st path dep maxD nl hlt tr2 e2 hr] at ht
        simp only [Option.some.injEq] at ht
        have hz := runDocs_headersAt_zero _ st path dep d (by omega) hsub _ tr2 e2 hr
        rw [← ht, headersAt_append, headersAt_append, headersAt_colIntro, hz,
          headersAt_colTail]

/-- At its own depth a dump prints at most one header per processed
document. -/
theorem dumpFuel_headersAt_self :
    ∀ (fuel : Nat) (st : Store) (path : List String) (dep : Nat) (maxD : Int)
      (nl : Bool) (tr : List Event), dumpFuel fuel st path dep maxD nl = some tr →
      headersAt dep tr ≤ (processedDocs st path nl).length := by
  intro fuel st path dep maxD nl tr ht
  cases fuel with
  | zero => cases ht
  | succ fuel =>
    by_cases hlt : maxD < (dep : Int)
    · simp only [dumpFuel, if_pos hlt, Option.some.injEq] at ht
      rw [← ht]
      simp [headersAt]
    · have hsub : ∀ p t, dumpFuel fuel st p (dep + 1) maxD nl = some t →
          headersAt dep t = 0 := by
        intro p t hpt
        exact dumpFuel_headersAt_lt fuel st p (dep + 1) maxD nl t hpt dep (by omega)
      rcases hr : runDocs (fun p => dumpFuel fuel st p (dep + 1) maxD nl)
          st path dep (processedDocs st path nl) with _ | ⟨tr2, e2⟩
      · rw [dumpFuel_succ_none fuel st path dep maxD nl hlt hr] at ht
        cases ht
      · rw [dumpFuel_succ_eq fuel st path dep maxD nl hlt tr2 e2 hr] at ht
        simp only [Option.some.injEq] at ht
        have hle := runDocs_headersAt_le _ st path dep dep hsub _ tr2 e2 hr
        rw [← ht, headersAt_append, headersAt_append, headersAt_colIntro,
          headersAt_colTail]
        omega

/-- Claim C6: without the no-limit flag the issued query fetches at most 5
documents (first conjunct) and any collection call prints at most 5
document headers at its own depth — every collection visited in a run is
exactly such a call, and deeper traces only hold headers at deeper depths
(second conjunct); with the flag the issued query is the unlimited
collection stream (third conjunct). -/
theorem C6_fetch_limit :
    (∀ docs, (effectiveFetch docs false).length ≤ 5) ∧
    (∀ (st : Store) (path : List String) (depth : Nat) (maxDepth : Int),
      headersAt depth (dump st path depth maxDepth false) ≤ 5) ∧
    (∀ docs, effectiveFetch docs true = docs) := by
  refine ⟨?_, ?_, fun docs => rfl⟩
  · intro docs
    simp [effectiveFetch]
  · intro st path depth maxDepth
    unfold dump
    rcases hf : dumpFuel (fuelFor depth maxDepth) st path depth maxDepth false with _ | tr
    · simp [headersAt]
    · simp only [Option.getD_some]
      have h1 := dumpFuel_headersAt_self _ st path depth maxDepth false tr hf
      have h2 : (processedDocs st path false).length ≤ 5 := by
        simp only [processedDocs, effectiveFetch, if_neg, Bool.false_eq_true,
          not_false_eq_true]
        rcases st.errAt path with _ | ⟨n, m⟩ <;> simp [List.length_take]
      omega

/-- Claim C4 as amended: for a value outside the special cases the
serializer first attempts the generic encoding and returns the value on
success; a TypeError from the generic encoding is answered with the string
form; any other generic-encoding failure is answered with
`Unserializable(<type name>)` plus a warning on the diagnostic list (the
model of the stderr stream, separate from the stdout event trace); and a
failure while computing the string form propagates out of the serializer. -/
theorem C4_fallback_order_amended :
    (∀ ty r s, json_serializer (PyVal.other ty (DumpsOutcome.ok r) s) =
       SerResult.val (JsonOut.jraw r) []) ∧
    (∀ ty s, json_serializer (PyVal.other ty DumpsOutcome.typeError (StrOutcome.ok s)) =
       SerResult.val (JsonOut.jstr s) []) ∧
    (∀ ty m sf, json_serializer (PyVal.other ty (DumpsOutcome.otherError m) sf) =
       SerResult.val (JsonOut.jstr ("Unserializable(" ++ ty ++ ")")) [serWarnMsg ty m]) ∧
    (∀ ty m, json_serializer (PyVal.other ty DumpsOutcome.typeError (StrOutcome.raisesStr m)) =
       SerResult.raise m) :=
  ⟨fun _ _ _ => rfl, fun _ _ => rfl, fun _ _ _ => rfl, fun _ _ => rfl⟩

end FireDump
